import Mathlib

/-!
# Verification of the pdf-invoice batch pipeline specification

Shallow embedding of the `pdf-invoice` repository (Next.js frontend under
`frontend/src/app/dashboard`, FastAPI backend documented in
`docs/FileStructure.md`).  Frontend functions are translated directly from
the TypeScript source; the backend services (`backend/routes/pdf.py`,
`backend/services/pdf.py`, `backend/services/email.py`) are not part of the
source tree available here, so the operations they own are modelled from the
specification, each such definition marked `Modelled from the spec:`.
-/

namespace PdfInvoice

/-! ## Sender-string parsing

Embedding of the sender normalization in `handleSearch`
(`frontend/src/app/dashboard/page.tsx`, lines 131-167).  The source runs the
JavaScript regular expression

  `/^(.*?)(?:\s*\((.*?)\))?$/`

against `email.from` and then sets

  `senderName = matches[1].trim()`
  `senderEmail = matches[2] || matches[1]`

with defaults `senderName = "未知寄件者"`, `senderEmail = ""` retained when
`email.from` is falsy or the regex does not match.  The embedding models the
exact backtracking semantics of that pattern over strings built from ASCII
whitespace and ordinary characters (JS `\s` is restricted here to the six
ASCII whitespace characters, and the `.`-metacharacter exclusions to LF/CR).
-/

/-- ASCII part of the JavaScript `\s` character class. -/
def isJsWs (c : Char) : Bool :=
  c = ' ' || c = '\t' || c = '\n' || c = '\r' || c = '\x0b' || c = '\x0c'

/-- Characters the JavaScript `.` metacharacter does not match (LF, CR). -/
def isLineTerm (c : Char) : Bool :=
  c = '\n' || c = '\r'

/-- JavaScript `String.prototype.trim` on a character list (both ends). -/
def trimChars (l : List Char) : List Char :=
  ((l.dropWhile isJsWs).reverse.dropWhile isJsWs).reverse

/-- Core of the tail attempt after the greedy `\s*`: an opening parenthesis,
group 2 running to a closing parenthesis that is the last character of the
string (group 2 itself matched by `.`, hence line-terminator free). -/
def tailCore : List Char → Option (List Char)
  | [] => none
  | c :: rest =>
    if c = '(' then
      match rest.reverse with
      | [] => none
      | c2 :: revG2 =>
        if c2 = ')' then
          if revG2.reverse.all (fun x => !isLineTerm x) then some revG2.reverse else none
        else none
    else none

/-- Attempt of the tail `\s*\((.*?)\)$` of the sender regex at the current
position: greedy whitespace, then the parenthesized group. -/
def tailMatch (t : List Char) : Option (List Char) :=
  tailCore (t.dropWhile isJsWs)

/-- Backtracking loop of `/^(.*?)(?:\s*\((.*?)\))?$/`: group 1 is lazy, so the
scan tries the parenthesized tail at every position from the left; at the end
of the string the optional group matches empty.  `acc` holds the reversed
prefix consumed so far (all of it matched by `.`, hence line-terminator
free).  Returns `none` exactly when the regex does not match. -/
def senderScan (acc : List Char) : List Char → Option (List Char × Option (List Char))
  | [] => some (acc.reverse, none)
  | c :: rest =>
    match tailMatch (c :: rest) with
    | some g2 => some (acc.reverse, some g2)
    | none =>
      if isLineTerm c then none else senderScan (c :: acc) rest

/-- Sender shape produced by `handleSearch` (`EmailSender` in the source). -/
structure EmailSender where
  name : String
  email : String
  deriving DecidableEq, Repr

/-- Embedding of the sender-parsing block of `handleSearch`
(`frontend/src/app/dashboard/page.tsx`, lines 136-149): defaults
`名 = "未知寄件者"`, address `= ""`; on a regex match, name is group 1
trimmed and address is `matches[2] || matches[1]`. -/
def parseSender (raw : String) : EmailSender :=
  if raw = "" then ⟨"未知寄件者", ""⟩
  else
    match senderScan [] raw.toList with
    | none => ⟨"未知寄件者", ""⟩
    | some (g1, og2) =>
      let name := String.mk (trimChars g1)
      let email :=
        match og2 with
        | some g2 => if g2 = [] then String.mk g1 else String.mk g2
        | none => String.mk g1
      ⟨name, email⟩

/-! ## Client-side PDF store

Embedding of the IndexedDB session artifact store of
`frontend/src/app/dashboard/analysis/page.tsx`: `initDB` (lines 55-82)
creates the object store with `keyPath: ['sessionId', 'filename']`, and
`savePDFToIndexedDB` (lines 133-149) issues `store.put(record)` with
`createdAt: Date.now()`.  The store is modelled as a list of records; `put`
has the IndexedDB upsert semantics on the in-line key, and the wall clock is
an explicit argument. -/

/-- `PDFRecord` from `analysis/page.tsx` lines 47-52. -/
structure PDFRecord where
  filename : String
  content : String
  sessionId : String
  createdAt : Nat
  deriving DecidableEq, Repr

/-- The in-line key declared by `initDB`: `keyPath: ['sessionId', 'filename']`. -/
def pdfKey (r : PDFRecord) : String × String :=
  (r.sessionId, r.filename)

/-- IndexedDB `store.put`: replace the record carrying the same key if one
exists, insert at the end otherwise. -/
def storePut : List PDFRecord → PDFRecord → List PDFRecord
  | [], r => [r]
  | x :: xs, r => if pdfKey x = pdfKey r then r :: xs else x :: storePut xs r

/-- `savePDFToIndexedDB(sessionId, filename, content)` with `Date.now()`
passed explicitly as `now`. -/
def savePDFToIndexedDB (db : List PDFRecord) (sessionId filename content : String)
    (now : Nat) : List PDFRecord :=
  storePut db { filename := filename, content := content, sessionId := sessionId,
                createdAt := now }

/-! ## Analysis page client model

Embedding of `AnalysisContent` in `frontend/src/app/dashboard/analysis/page.tsx`
(both variants).  The TypeScript interfaces `InvoiceData`,
`AnalysisProgress` and `AnalysisResult` (lines 13-40 and 586-613) are
translated field by field; snake_case field names become camelCase.  Monetary
fields are embedded as rationals. -/

/-- `InvoiceData` (lines 13-27): the thirteen extracted fields.  This is also
the spec's `InvoiceRecord` (§3), which lists the same fields. -/
structure InvoiceRecord where
  emailSubject : String
  emailSender : String
  emailDate : String
  invoiceNumber : String
  invoiceDate : String
  buyerName : String
  buyerTaxId : String
  sellerName : String
  taxableAmount : ℚ
  taxFreeAmount : ℚ
  zeroTaxAmount : ℚ
  taxAmount : ℚ
  totalAmount : ℚ
  deriving DecidableEq, Repr

/-- `AnalysisProgress` (lines 29-34): the wire shape read from
`/api/pdf/progress`; `status` is a plain string in the source. -/
structure AnalysisProgress where
  total : Nat
  current : Nat
  status : String
  message : String
  deriving DecidableEq, Repr

/-- `AnalysisResult` (lines 36-40): the body of the `/api/pdf/analyze`
response stored by `setResult`. -/
structure AnalysisResultWire where
  invoices : List InvoiceRecord
  failedFiles : List String
  downloadUrl : Option String
  deriving DecidableEq, Repr

/-- The component state of `AnalysisContent` touched by the analysis flow:
`isAnalyzing`, `progress`, `result` (lines 232-234). -/
structure ClientState where
  isAnalyzing : Bool
  progress : Option AnalysisProgress
  result : Option AnalysisResultWire
  deriving DecidableEq, Repr

/-- Initial client state: `useState(true)`, `useState(null)`, `useState(null)`. -/
def clientInit : ClientState :=
  { isAnalyzing := true, progress := none, result := none }

/-- `startAnalysis` response handling (lines 269-279 and 646-660): a
successful `/api/pdf/analyze` response body is parsed as `AnalysisResult`
and stored via `setResult`, then `setIsAnalyzing(false)`; the catch branch
only clears `isAnalyzing`. -/
def applyAnalyzeResponse (s : ClientState) (resp : Except Unit AnalysisResultWire) :
    ClientState :=
  match resp with
  | .ok r => { s with result := some r, isAnalyzing := false }
  | .error _ => { s with isAnalyzing := false }

/-- Requests the analysis page issues against the PDF API.  Translated from
the `fetch` calls of both variants: `/api/pdf/analyze` carries the email id
list, `/api/pdf/progress` (lines 292 and 665) carries nothing — in
particular no job identifier. -/
inductive PdfApiRequest where
  | analyze (emails : List String)
  | progress
  deriving DecidableEq, Repr

/-- The progress poll request built by the client (lines 290-292 / 663-665):
`fetch("/api/pdf/progress")`, identical for every client state. -/
def buildProgressRequest (_ : ClientState) : PdfApiRequest :=
  PdfApiRequest.progress

/-- Poll response handling (lines 293-300): `setProgress(data)`, and when
`data.status` is `completed` or `error` the polling loop stops and
`setIsAnalyzing(false)` runs. -/
def applyProgressPoll (s : ClientState) (data : AnalysisProgress) : ClientState :=
  { s with progress := some data,
           isAnalyzing :=
             if data.status = "completed" || data.status = "error" then false
             else s.isAnalyzing }

/-! ## Mailbox search validation

The search endpoint implementation (`backend/routes/email.py`,
`backend/services/email.py` in the documented tree) is not under the
available source; only its caller `handleSearch` is.  The validation rule is
therefore modelled from the spec. -/

/-- `dateRange` of a search query; `start`/`stop` are calendar dates under an
order-preserving encoding (ISO `YYYY-MM-DD` strings compare lexicographically
exactly as these numbers compare); `stop` embeds the source field `end`. -/
structure DateRange where
  start : Nat
  stop : Nat
  deriving DecidableEq, Repr

/-- Search query shape sent by `handleSearch` (page.tsx lines 60-68). -/
structure SearchQuery where
  provider : String
  keywords : String
  range : DateRange
  folder : String
  deriving DecidableEq, Repr

/-- Normalized email shape returned by the search (page.tsx lines 20-28). -/
structure Email where
  id : String
  subject : String
  sender : EmailSender
  date : String
  hasAttachments : Bool
  deriving DecidableEq, Repr

/-- Failures a provider adapter can raise (spec §4.1/§4.2). -/
inductive ProviderFailure where
  | api (code : Nat)
  | auth
  deriving DecidableEq, Repr

/-- Error taxonomy of the search path (spec §7). -/
inductive SearchError where
  | invalidQuery
  | providerError (code : Nat)
  | authError
  deriving DecidableEq, Repr

/-- Modelled from the spec: the search operation of the missing backend
(`backend/services/email.py`).  §4.2: "`start` must not be after `end`;
violating this fails with `InvalidQueryError` without contacting the
provider."  The provider adapter is a parameter; the boolean records whether
it was called. -/
def searchModel (providerSearch : SearchQuery → Except ProviderFailure (List Email))
    (q : SearchQuery) : Except SearchError (List Email) × Bool :=
  if q.range.stop < q.range.start then
    (Except.error SearchError.invalidQuery, false)
  else
    (match providerSearch q with
     | .ok es => .ok es
     | .error (.api c) => .error (.providerError c)
     | .error .auth => .error .authError, true)

/-! ## Invoice field extractor

`backend/services/pdf.py` / `backend/utils/pdf.py` are not under the
available source; the extractor is modelled from spec §4.4, with the anchor
labels taken from the field labels the frontend renders for the same fields
(analysis/page.tsx CSV headers, lines 363-377).  A blob's byte stream is
abstracted to its decoded text (`none` embeds an unreadable stream). -/

/-- Attachment metadata (`Attachment` in page.tsx lines 14-18 /
`AttachmentRef` in spec §3). -/
structure AttachmentRef where
  filename : String
  mimeType : String
  sizeBytes : Nat
  deriving DecidableEq, Repr

/-- Modelled from the spec: a decoded attachment (§3 `AttachmentBlob`); the
PDF byte stream is abstracted to the plain text the decode step yields,
`none` when the stream is unreadable. -/
structure AttachmentBlob where
  ref : AttachmentRef
  text : Option String
  deriving DecidableEq, Repr

/-- Email metadata copied into every record extracted from its attachments. -/
structure EmailMeta where
  subject : String
  sender : String
  date : String
  deriving DecidableEq, Repr

/-- Reason codes of spec §4.4. -/
inductive FailureReason where
  | unreadableStream
  | noAnchorsFound
  | decodeTimeout
  deriving DecidableEq, Repr

/-- `ExtractionFailure` of spec §4.4: filename plus reason code. -/
structure ExtractionFailure where
  filename : String
  reason : FailureReason
  deriving DecidableEq, Repr

/-- First occurrence search: the text following the first occurrence of
`label` in `text`, `none` when the label does not occur. -/
def afterLabel (label : List Char) : List Char → Option (List Char)
  | [] => if label.isEmpty then some [] else none
  | c :: rest =>
    if label.isPrefixOf (c :: rest) then some ((c :: rest).drop label.length)
    else afterLabel label rest

/-- The value attached to an anchor: drop separator characters after the
label, read to the end of the line, trim. -/
def anchorValue (rest : List Char) : String :=
  String.mk (trimChars ((rest.dropWhile fun c => c = ':' || c = '：')
    |>.takeWhile fun c => !isLineTerm c))

/-- Locate one anchor label in the extracted text (spec §4.4 "locate
invoice-specific anchors via pattern matching over the extracted text"). -/
def findAnchor (label : String) (text : String) : Option String :=
  (afterLabel label.toList text.toList).map anchorValue

/-- The raw (pre-coercion) field matches of one document. -/
structure RawFields where
  invoiceNumber : Option String
  invoiceDate : Option String
  buyerName : Option String
  buyerTaxId : Option String
  sellerName : Option String
  taxableAmount : Option String
  taxFreeAmount : Option String
  zeroTaxAmount : Option String
  taxAmount : Option String
  totalAmount : Option String
  deriving DecidableEq, Repr

/-- Modelled from the spec: anchor location of the missing extractor.  The
labels are the invoice-field labels of the frontend table/CSV
(發票號碼, 發票日期, 買受人, 統一編號, 開立單位, 應稅銷售額, 免稅銷售額,
零稅率銷售額, 營業稅稅額, 發票總金額). -/
def extractFields (text : String) : RawFields :=
  { invoiceNumber := findAnchor "發票號碼" text
    invoiceDate := findAnchor "發票日期" text
    buyerName := findAnchor "買受人" text
    buyerTaxId := findAnchor "統一編號" text
    sellerName := findAnchor "開立單位" text
    taxableAmount := findAnchor "應稅銷售額" text
    taxFreeAmount := findAnchor "免稅銷售額" text
    zeroTaxAmount := findAnchor "零稅率銷售額" text
    taxAmount := findAnchor "營業稅稅額" text
    totalAmount := findAnchor "發票總金額" text }

/-- Whether at least one invoice anchor matched. -/
def RawFields.anyFound (f : RawFields) : Bool :=
  f.invoiceNumber.isSome || f.invoiceDate.isSome || f.buyerName.isSome ||
  f.buyerTaxId.isSome || f.sellerName.isSome || f.taxableAmount.isSome ||
  f.taxFreeAmount.isSome || f.zeroTaxAmount.isSome || f.taxAmount.isSome ||
  f.totalAmount.isSome

/-- Digit-string value. -/
def digitsToNat (l : List Char) : Nat :=
  l.foldl (fun n c => 10 * n + (c.toNat - '0'.toNat)) 0

/-- Modelled from the spec: monetary coercion of §4.4 — "monetary strings
stripped of thousands separators and currency symbols, parsed as decimal,
defaulting to 0 on an unmatched/optional field".  Keeps digits and the first
decimal point, reads integer and fractional parts. -/
def parseAmount (s : String) : ℚ :=
  let cs := s.toList.filter fun c => c.isDigit || c = '.'
  let intPart := cs.takeWhile fun c => c ≠ '.'
  let fracPart := ((cs.dropWhile fun c => c ≠ '.').drop 1).takeWhile Char.isDigit
  (digitsToNat intPart : ℚ) + (digitsToNat fracPart : ℚ) / (10 : ℚ) ^ fracPart.length

/-- Modelled from the spec: assembling a record from a partial anchor set
(§4.4): every missing field is set to the explicit empty/zero sentinel. -/
def buildRecord (meta : EmailMeta) (f : RawFields) : InvoiceRecord :=
  { emailSubject := meta.subject
    emailSender := meta.sender
    emailDate := meta.date
    invoiceNumber := f.invoiceNumber.getD ""
    invoiceDate := f.invoiceDate.getD ""
    buyerName := f.buyerName.getD ""
    buyerTaxId := f.buyerTaxId.getD ""
    sellerName := f.sellerName.getD ""
    taxableAmount := (f.taxableAmount.map parseAmount).getD 0
    taxFreeAmount := (f.taxFreeAmount.map parseAmount).getD 0
    zeroTaxAmount := (f.zeroTaxAmount.map parseAmount).getD 0
    taxAmount := (f.taxAmount.map parseAmount).getD 0
    totalAmount := (f.totalAmount.map parseAmount).getD 0 }

/-- Modelled from the spec: `extract(blob)` of the missing extractor
(§4.4): unreadable stream is a failure; a document matching zero anchors is
`noAnchorsFound`; otherwise a record with missing fields at the sentinel. -/
def extract (meta : EmailMeta) (blob : AttachmentBlob) :
    Except ExtractionFailure InvoiceRecord :=
  match blob.text with
  | none => .error { filename := blob.ref.filename, reason := .unreadableStream }
  | some t =>
    let f := extractFields t
    if f.anyFound then .ok (buildRecord meta f)
    else .error { filename := blob.ref.filename, reason := .noAnchorsFound }

/-- One extraction pass over a batch, in batch order. -/
def runExtract (meta : EmailMeta) (blobs : List AttachmentBlob) :
    List (Except ExtractionFailure InvoiceRecord) :=
  blobs.map (extract meta)

/-- The invariant of spec §3 on a record's monetary fields, "checked but not
enforced". -/
def checkTotal (r : InvoiceRecord) : Bool :=
  r.totalAmount = r.taxableAmount + r.taxFreeAmount + r.zeroTaxAmount + r.taxAmount

/-! ## Progress tracker

The tracker lives in the missing backend (`backend/services/pdf.py`); it is
modelled from spec §4.5 as a state machine with states
`pending → processing → {completed, error}` and the update
"increment current, set message". -/

/-- Job status values of spec §3/§4.5. -/
inductive JobStatus where
  | pending
  | processing
  | completed
  | error
  deriving DecidableEq, Repr

/-- Terminal statuses (spec §4.5). -/
def JobStatus.isTerminal : JobStatus → Bool
  | .completed => true
  | .error => true
  | _ => false

/-- Tracker state of one job (spec §3 `AnalysisJob` progress part). -/
structure TrackerState where
  total : Nat
  current : Nat
  status : JobStatus
  message : String
  deriving DecidableEq, Repr

/-- Tracker state before the job is initialized: `status=pending`, `current=0`
(spec §6, `progress(jobId)` before initialization). -/
def trackerInit : TrackerState :=
  { total := 0, current := 0, status := .pending, message := "" }

/-- Updates the pipeline can issue against the tracker (spec §4.5). -/
inductive TrackerEvent where
  | start (total : Nat)
  | tick (msg : String)
  | complete
  | fail (msg : String)
  deriving DecidableEq, Repr

/-- Modelled from the spec: the tracker transition function of §4.5.
`pending → processing` on job start; each completed attachment is
"increment current, set message" without changing status;
`processing → completed` / `processing → error` close the job.  No
transition leaves a terminal state, and events with no matching transition
leave the state unchanged. -/
def trackerStep (p : TrackerState) (e : TrackerEvent) : TrackerState :=
  match p.status, e with
  | .pending, .start t => { p with status := .processing, total := t }
  | .processing, .tick m => { p with current := p.current + 1, message := m }
  | .processing, .complete => { p with status := .completed }
  | .processing, .fail m => { p with status := .error, message := m }
  | _, _ => p

/-- Folding a sequence of updates into the tracker. -/
def trackerRun (p : TrackerState) (es : List TrackerEvent) : TrackerState :=
  es.foldl trackerStep p

/-- The full observable trace of tracker states along a sequence of updates
(what a polling reader can observe, in order). -/
def trackerTrace (p : TrackerState) (es : List TrackerEvent) : List TrackerState :=
  es.scanl trackerStep p

/-- Modelled from the spec: the read-only `progress(jobId)` endpoint (§6):
it returns the tracker state and leaves the store untouched. -/
def progressRead (p : TrackerState) : TrackerState × TrackerState :=
  (p, p)

/-! ## Batch pipeline and result aggregation

Modelled from spec §4.3/§4.6/§7 — `backend/routes/pdf.py` is not under the
available source.  One unit of work fetches and extracts a single
attachment; a unit failure is recorded as a failed filename; each finished
unit increments the tracker. -/

/-- One per-attachment unit of work: its email metadata, the attachment
reference, and what fetching yields — `none` embeds a fetch failure
(transient network error, oversized attachment), `some text` the decoded
blob with extractable text `text`. -/
structure AttachmentTask where
  meta : EmailMeta
  ref : AttachmentRef
  fetched : Option (Option String)
  deriving DecidableEq, Repr

/-- Modelled from the spec: one fetch+parse unit (§4.3): a fetch failure or
an extraction failure degrades to the failed filename; success yields the
record. -/
def processOne (task : AttachmentTask) : Except String InvoiceRecord :=
  match task.fetched with
  | none => .error task.ref.filename
  | some txt =>
    match extract task.meta { ref := task.ref, text := txt } with
    | .ok r => .ok r
    | .error f => .error f.filename

/-- Whether a unit fails to fetch or parse. -/
def taskFails (task : AttachmentTask) : Bool :=
  match processOne task with
  | .ok _ => false
  | .error _ => true

/-- Aggregated job result (spec §3 `AnalysisResult`). -/
structure AnalysisResult where
  invoices : List InvoiceRecord
  failedFiles : List String
  deriving DecidableEq, Repr

/-- Job state threaded through the pipeline: tracker plus aggregator. -/
structure JobState where
  progress : TrackerState
  result : AnalysisResult
  deriving DecidableEq, Repr

/-- Modelled from the spec: one pipeline step (§4.3 side effect, §4.6
aggregation): run the unit, append the record or the failed filename, then
increment the tracker's `current` and set its message to the filename. -/
def stepJob (st : JobState) (task : AttachmentTask) : JobState :=
  { progress := trackerStep st.progress (.tick task.ref.filename)
    result :=
      match processOne task with
      | .ok r => { st.result with invoices := st.result.invoices ++ [r] }
      | .error fn => { st.result with failedFiles := st.result.failedFiles ++ [fn] } }

/-- Job state right after `analyze` starts a batch of `tasks`:
`pending → processing` with `total` the number of attachments. -/
def jobStart (tasks : List AttachmentTask) : JobState :=
  { progress := trackerStep trackerInit (.start tasks.length)
    result := { invoices := [], failedFiles := [] } }

/-- Modelled from the spec: the whole batch run (§4.3-§4.6, §7): every unit
is processed in isolation, then the tracker closes with `completed`. -/
def runJob (tasks : List AttachmentTask) : JobState :=
  let fin := tasks.foldl stepJob (jobStart tasks)
  { fin with progress := trackerStep fin.progress .complete }

/-! ## Concrete sample data used by witnesses and counterexamples -/

/-- Sample email metadata. -/
def metaW : EmailMeta :=
  { subject := "一月發票", sender := "billing@example.com", date := "2024-01-15T08:00:00Z" }

/-- Sample invoice record. -/
def demoInvoice : InvoiceRecord :=
  { emailSubject := "一月發票", emailSender := "billing@example.com"
    emailDate := "2024-01-15T08:00:00Z", invoiceNumber := "AB-12345678"
    invoiceDate := "2024-01-05", buyerName := "甲公司", buyerTaxId := "12345678"
    sellerName := "乙公司", taxableAmount := 100, taxFreeAmount := 0
    zeroTaxAmount := 0, taxAmount := 5, totalAmount := 105 }

/-- Sample `/api/pdf/analyze` response body. -/
def demoResultWire : AnalysisResultWire :=
  { invoices := [demoInvoice], failedFiles := ["broken.pdf"], downloadUrl := none }

/-! ## C4 — search query validation boundary -/

/-- C4: for every dateRange with start > end, search fails with
`InvalidQueryError` and performs no provider call; with start ≤ end it never
raises `InvalidQueryError`.  (Backend search service modelled from the
spec.) -/
theorem search_daterange_validation
    (providerSearch : SearchQuery → Except ProviderFailure (List Email))
    (q : SearchQuery) :
    (q.range.stop < q.range.start →
      searchModel providerSearch q = (Except.error SearchError.invalidQuery, false)) ∧
    (q.range.start ≤ q.range.stop →
      (searchModel providerSearch q).1 ≠ Except.error SearchError.invalidQuery) := by
  constructor
  · intro h
    simp [searchModel, h]
  · intro h
    have h2 : ¬ q.range.stop < q.range.start := by omega
    simp only [searchModel, if_neg h2]
    cases providerSearch q with
    | ok es => simp
    | error f => cases f <;> simp

/-- Witness for C4 at concrete queries: an inverted range is rejected with no
provider call, a well-formed one is not rejected. -/
theorem search_daterange_validation_witness :
    (searchModel (fun _ => Except.ok [])
        { provider := "GOOGLE", keywords := "發票",
          range := { start := 20240131, stop := 20240101 }, folder := "INBOX" } =
      (Except.error SearchError.invalidQuery, false)) ∧
    ((searchModel (fun _ => Except.ok [])
        { provider := "GOOGLE", keywords := "發票",
          range := { start := 20240101, stop := 20240131 }, folder := "INBOX" }).1 ≠
      Except.error SearchError.invalidQuery) :=
  ⟨(search_daterange_validation (fun _ => Except.ok []) _).1 (by decide),
   (search_daterange_validation (fun _ => Except.ok []) _).2 (by decide)⟩

/-! ## C5 — extraction determinism -/

/-- C5: extraction of byte-identical blobs yields identical outcomes, with no
dependence on batch position, sibling blobs, or prior calls: the outcome at
any position of any run is `extract` of the blob found there.  (Extractor
modelled from the spec; it takes no clock or history argument, so wall-clock
independence is structural.) -/
theorem extract_deterministic (meta : EmailMeta) (bs cs : List AttachmentBlob)
    (i j : Nat) (b : AttachmentBlob) (hb : bs[i]? = some b) (hc : cs[j]? = some b) :
    (runExtract meta bs)[i]? = some (extract meta b) ∧
    (runExtract meta bs)[i]? = (runExtract meta cs)[j]? := by
  have h1 : (runExtract meta bs)[i]? = some (extract meta b) := by
    simp [runExtract, List.getElem?_map, hb]
  have h2 : (runExtract meta cs)[j]? = some (extract meta b) := by
    simp [runExtract, List.getElem?_map, hc]
  exact ⟨h1, h1.trans h2.symm⟩

/-- Sample readable blob carrying one invoice-number anchor. -/
def blobW : AttachmentBlob :=
  { ref := { filename := "a.pdf", mimeType := "application/pdf", sizeBytes := 10 }
    text := some "發票號碼: AB-12345678" }

/-- Sample unreadable blob. -/
def blobBadW : AttachmentBlob :=
  { ref := { filename := "z.pdf", mimeType := "application/pdf", sizeBytes := 3 }
    text := none }

/-- Witness for C5: the same blob placed at different positions of two
different batches extracts identically. -/
theorem extract_deterministic_witness :
    (runExtract metaW [blobW])[0]? = some (extract metaW blobW) ∧
    (runExtract metaW [blobW])[0]? = (runExtract metaW [blobBadW, blobW])[1]? :=
  extract_deterministic metaW _ _ 0 1 _ (by rfl) (by rfl)

/-! ## C7 — analyze does not return a job identifier -/

/-- C7 counterexample: in the source, the body of a successful
`/api/pdf/analyze` response is the aggregated `AnalysisResult` itself
(invoices and failed files), stored directly by `setResult` — contradicting
the claim that analyze returns only a job identifier and that the result is
obtained separately by polling until terminal and reading `result(jobId)`.
At the concrete response `demoResultWire`, the client holds the full result
(nonempty invoice list) immediately after the analyze response, with no job
identifier anywhere in the exchange. -/
theorem analyze_returns_result_cex :
    (applyAnalyzeResponse clientInit (Except.ok demoResultWire)).result =
      some demoResultWire ∧
    demoResultWire.invoices ≠ [] ∧
    (applyAnalyzeResponse clientInit (Except.ok demoResultWire)).isAnalyzing = false :=
  ⟨rfl, by decide, rfl⟩

/-- C7 amended: `analyze(emailIds, credential)` responds with the aggregated
`AnalysisResult` (invoices, failed files, optional download url) once the
batch finishes, and the client stores that response body directly as the
final result (clearing `isAnalyzing`); a failed analyze call only clears
`isAnalyzing`.  Progress is polled concurrently from a separate endpoint for
display only; no job identifier exists in the exchange. -/
theorem analyze_response_amended (s : ClientState) (r : AnalysisResultWire) (e : Unit) :
    applyAnalyzeResponse s (Except.ok r) =
      { s with result := some r, isAnalyzing := false } ∧
    applyAnalyzeResponse s (Except.error e) = { s with isAnalyzing := false } :=
  ⟨rfl, rfl⟩

/-! ## C8 — progress endpoint is global, not job-keyed -/

/-- C8 counterexample: the claim says progress "is keyed per job identifier
rather than reading a single global in-flight job".  In the source both
variants poll `fetch("/api/pdf/progress")` with no job identifier: two
observably different client states (here: before and after an analyze
response) issue the identical, parameterless progress request, so every
poller reads the same single global in-flight job. -/
theorem progress_global_cex :
    buildProgressRequest clientInit = PdfApiRequest.progress ∧
    buildProgressRequest (applyAnalyzeResponse clientInit (Except.ok demoResultWire)) =
      buildProgressRequest clientInit ∧
    applyAnalyzeResponse clientInit (Except.ok demoResultWire) ≠ clientInit := by
  refine ⟨rfl, rfl, ?_⟩
  intro h
  have := congrArg ClientState.isAnalyzing h
  simp [applyAnalyzeResponse, clientInit] at this

/-- C8 amended: `progress` is read-only and safe to call at any time — it
returns the tracker state unchanged, and before the job is initialized it
reports `status = pending` and `current = 0` (backend store modelled from
the spec) — but it reads a single global in-flight job: the client request
carries no job identifier and is the same for every client state. -/
theorem progress_read_amended (p : TrackerState) (s : ClientState) :
    (progressRead p).2 = p ∧
    (progressRead trackerInit).1.status = JobStatus.pending ∧
    (progressRead trackerInit).1.current = 0 ∧
    buildProgressRequest s = PdfApiRequest.progress :=
  ⟨rfl, rfl, rfl, rfl⟩

/-! ## C10 — PDF store key uniqueness and overwrite idempotence -/

/-- Every key present after a `put` was present before or is the new key. -/
theorem mem_keys_storePut (db : List PDFRecord) (r : PDFRecord) (k : String × String)
    (h : k ∈ (storePut db r).map pdfKey) : k ∈ db.map pdfKey ∨ k = pdfKey r := by
  induction db with
  | nil => simp [storePut] at h; simp [h]
  | cons x xs ih =>
    by_cases hx : pdfKey x = pdfKey r
    · simp only [storePut, if_pos hx, List.map_cons, List.mem_cons] at h
      rcases h with h | h
      · right; exact h
      · left; simp [h]
    · simp only [storePut, if_neg hx, List.map_cons, List.mem_cons] at h
      rcases h with h | h
      · left; simp [h]
      · rcases ih h with h2 | h2
        · left; simp [h2]
        · right; exact h2

/-- `put` preserves key uniqueness: the store never holds two records with
the same `(sessionId, filename)` key. -/
theorem storePut_keys_nodup (db : List PDFRecord) (r : PDFRecord)
    (h : (db.map pdfKey).Nodup) : ((storePut db r).map pdfKey).Nodup := by
  induction db with
  | nil => simp [storePut]
  | cons x xs ih =>
    rw [List.map_cons, List.nodup_cons] at h
    by_cases hx : pdfKey x = pdfKey r
    · simp only [storePut, if_pos hx, List.map_cons, List.nodup_cons]
      exact ⟨by rw [← hx] at *; exact h.1, h.2⟩
    · simp only [storePut, if_neg hx, List.map_cons, List.nodup_cons]
      refine ⟨?_, ih h.2⟩
      intro hmem
      rcases mem_keys_storePut xs r (pdfKey x) hmem with h2 | h2
      · exact h.1 h2
      · exact hx h2

/-- A later `put` of the same key fully absorbs an earlier one. -/
theorem storePut_absorb (db : List PDFRecord) (r₁ r₂ : PDFRecord)
    (h : pdfKey r₁ = pdfKey r₂) :
    storePut (storePut db r₁) r₂ = storePut db r₂ := by
  induction db with
  | nil => simp [storePut, h]
  | cons x xs ih =>
    by_cases hx : pdfKey x = pdfKey r₁
    · simp only [storePut, if_pos hx, if_pos (hx.trans h), if_pos h]
    · have hx2 : ¬ pdfKey x = pdfKey r₂ := fun hc => hx (hc.trans h.symm)
      simp only [storePut, if_neg hx, if_neg hx2, ih]

/-- C10: the client-side PDF store holds at most one record per
`(sessionId, filename)` key — `savePDFToIndexedDB` preserves key
uniqueness — and a repeated save of the same `(sessionId, filename,
content)` replaces the earlier record, leaving the store exactly as a
single save would (`Date.now()` is the explicit `now` argument). -/
theorem pdf_store_save_idempotent (db : List PDFRecord)
    (sessionId filename content : String) (t₁ t₂ : Nat)
    (h : (db.map pdfKey).Nodup) :
    ((savePDFToIndexedDB db sessionId filename content t₁).map pdfKey).Nodup ∧
    savePDFToIndexedDB (savePDFToIndexedDB db sessionId filename content t₁)
        sessionId filename content t₂ =
      savePDFToIndexedDB db sessionId filename content t₂ := by
  constructor
  · exact storePut_keys_nodup db _ h
  · exact storePut_absorb db _ _ rfl

/-- A one-record store used by the C10 witness. -/
def demoPdfDb : List PDFRecord :=
  [{ filename := "b.pdf", content := "QkJC", sessionId := "s1", createdAt := 5 }]

/-- Witness for C10 at a concrete store: saving `a.pdf` twice into a session
equals saving it once, and keys stay unique. -/
theorem pdf_store_save_idempotent_witness :
    ((savePDFToIndexedDB demoPdfDb "s1" "a.pdf" "QUFB" 10).map pdfKey).Nodup ∧
    savePDFToIndexedDB (savePDFToIndexedDB demoPdfDb "s1" "a.pdf" "QUFB" 10)
        "s1" "a.pdf" "QUFB" 11 =
      savePDFToIndexedDB demoPdfDb "s1" "a.pdf" "QUFB" 11 :=
  pdf_store_save_idempotent demoPdfDb "s1" "a.pdf" "QUFB" 10 11 (by decide)

/-! ## C2 — progress monotonicity and terminal absorption -/

/-- Any single tracker update leaves `current` the same or increments it. -/
theorem trackerStep_current_le (p : TrackerState) (e : TrackerEvent) :
    p.current ≤ (trackerStep p e).current := by
  cases hs : p.status <;> cases e <;> simp [trackerStep, hs]

/-- A terminal tracker state absorbs every update. -/
theorem trackerStep_terminal (p : TrackerState) (e : TrackerEvent)
    (h : p.status.isTerminal = true) : trackerStep p e = p := by
  cases hs : p.status <;> rw [hs] at h <;> simp [JobStatus.isTerminal] at h <;>
    cases e <;> simp [trackerStep, hs]

/-- A `scanl` trace of a step function whose every step respects `R` is an
`R`-chain. -/
theorem chain_scanl {α β : Type} (R : α → α → Prop) (f : α → β → α)
    (hR : ∀ a c, R a (f a c)) : ∀ (l : List β) (b : α), List.Chain' R (List.scanl f b l) := by
  intro l
  induction l with
  | nil => intro b; simp
  | cons a l ih =>
    intro b
    rw [List.scanl]
    have hh : (List.scanl f (f b a) l).head? = some (f b a) := by
      cases l <;> simp [List.scanl]
    refine List.chain'_cons'.2 ⟨?_, ih (f b a)⟩
    intro y hy
    rw [hh] at hy
    cases hy
    exact hR b a

/-- C2: along any sequence of tracker updates the observed `current` values
form a non-decreasing chain, and once the status is terminal (`completed` or
`error`) no later update changes the state at all.  (Tracker modelled from
spec §4.5.) -/
theorem progress_monotone_terminal (p : TrackerState) (es : List TrackerEvent) :
    List.Chain' (fun a b => a.current ≤ b.current) (trackerTrace p es) ∧
    (p.status.isTerminal = true → trackerRun p es = p) := by
  constructor
  · exact chain_scanl _ trackerStep trackerStep_current_le es p
  · intro h
    induction es with
    | nil => rfl
    | cons e es ih =>
      rw [trackerRun, List.foldl_cons, trackerStep_terminal p e h]
      exact ih

/-- A finished tracker state used by the C2 witness. -/
def trackerDoneW : TrackerState :=
  { total := 2, current := 2, status := JobStatus.completed, message := "done" }

/-- Witness for C2: a completed tracker state absorbs a further tick and its
observation trace is monotone. -/
theorem progress_monotone_terminal_witness :
    List.Chain' (fun a b => a.current ≤ b.current)
      (trackerTrace trackerDoneW [TrackerEvent.tick "late.pdf"]) ∧
    trackerRun trackerDoneW [TrackerEvent.tick "late.pdf"] = trackerDoneW :=
  ⟨(progress_monotone_terminal _ _).1,
   (progress_monotone_terminal _ _).2 (by decide)⟩

/-! ## C1 — failure isolation of the batch pipeline -/

/-- The failed filename of a unit, when it fails. -/
def errPart (task : AttachmentTask) : Option String :=
  match processOne task with
  | .ok _ => none
  | .error fn => some fn

/-- Every pipeline step keeps the tracker in `processing`, adds exactly the
unit's outcome to the aggregate, and increments `current`. -/
theorem foldl_stepJob_spec (tasks : List AttachmentTask) :
    ∀ st : JobState, st.progress.status = JobStatus.processing →
      (tasks.foldl stepJob st).result.invoices =
        st.result.invoices ++ tasks.filterMap (fun t => (processOne t).toOption) ∧
      (tasks.foldl stepJob st).result.failedFiles =
        st.result.failedFiles ++ tasks.filterMap errPart ∧
      (tasks.foldl stepJob st).progress.current = st.progress.current + tasks.length ∧
      (tasks.foldl stepJob st).progress.status = JobStatus.processing ∧
      (tasks.foldl stepJob st).progress.total = st.progress.total := by
  induction tasks with
  | nil => intro st h; simp [h]
  | cons t ts ih =>
    intro st h
    have hstep : (stepJob st t).progress.status = JobStatus.processing := by
      simp [stepJob, trackerStep, h]
    obtain ⟨h1, h2, h3, h4, h5⟩ := ih (stepJob st t) hstep
    rw [List.foldl_cons]
    refine ⟨?_, ?_, ?_, h4, ?_⟩
    · rw [h1]
      cases hp : processOne t <;>
        simp [stepJob, hp, Except.toOption, List.filterMap_cons]
    · rw [h2]
      cases hp : processOne t <;>
        simp [stepJob, hp, errPart, List.filterMap_cons]
    · rw [h3]
      simp only [stepJob, trackerStep, h]
      simp [List.length_cons]
      omega
    · rw [h5]
      simp [stepJob, trackerStep, h]

/-- Per-unit accounting: a unit contributes to exactly one of the two
filterMap outputs. -/
theorem filterMap_lengths (tasks : List AttachmentTask) :
    (tasks.filterMap (fun t => (processOne t).toOption)).length =
      tasks.countP (fun t => !taskFails t) ∧
    (tasks.filterMap errPart).length = tasks.countP taskFails ∧
    tasks.countP (fun t => !taskFails t) + tasks.countP taskFails = tasks.length := by
  induction tasks with
  | nil => simp
  | cons t ts ih =>
    obtain ⟨h1, h2, h3⟩ := ih
    cases hp : processOne t with
    | ok r =>
      have hf : taskFails t = false := by simp [taskFails, hp]
      have he : errPart t = none := by simp [errPart, hp]
      have hto : (processOne t).toOption = some r := by simp [hp, Except.toOption]
      refine ⟨?_, ?_, ?_⟩ <;>
        · simp only [List.filterMap_cons, List.countP_cons, hto, he, hf, List.length_cons]
          simp [h1, h2]
          try omega
    | error fn =>
      have hf : taskFails t = true := by simp [taskFails, hp]
      have he : errPart t = some fn := by simp [errPart, hp]
      have hto : (processOne t).toOption = none := by simp [hp, Except.toOption]
      refine ⟨?_, ?_, ?_⟩ <;>
        · simp only [List.filterMap_cons, List.countP_cons, hto, he, hf, List.length_cons]
          simp [h1, h2]
          try omega

/-- C1: a batch of N attachments of which exactly K fail to fetch or parse
finishes with exactly N - K invoice records and exactly K failed-file
entries, `current` reaching N and a terminal `completed` status; the record
list is exactly the per-unit successes in order, so no unit failure aborts
sibling units or discards already-parsed records.  (Pipeline modelled from
spec §4.3-§4.6.) -/
theorem batch_failure_isolation (tasks : List AttachmentTask) (K : Nat)
    (hK : tasks.countP taskFails = K) :
    (runJob tasks).result.invoices.length = tasks.length - K ∧
    (runJob tasks).result.failedFiles.length = K ∧
    (runJob tasks).result.invoices =
      tasks.filterMap (fun t => (processOne t).toOption) ∧
    (runJob tasks).progress.current = tasks.length ∧
    (runJob tasks).progress.status = JobStatus.completed := by
  have hstart : (jobStart tasks).progress.status = JobStatus.processing := by
    simp [jobStart, trackerStep, trackerInit]
  obtain ⟨h1, h2, h3, h4, h5⟩ := foldl_stepJob_spec tasks (jobStart tasks) hstart
  obtain ⟨l1, l2, l3⟩ := filterMap_lengths tasks
  have hfin : trackerStep (List.foldl stepJob (jobStart tasks) tasks).progress .complete =
      { (List.foldl stepJob (jobStart tasks) tasks).progress with
        status := JobStatus.completed } := by
    simp [trackerStep, h4]
  have hres0 : (jobStart tasks).result.invoices = [] := rfl
  have hres0f : (jobStart tasks).result.failedFiles = [] := rfl
  have hcur0 : (jobStart tasks).progress.current = 0 := rfl
  rw [hres0, List.nil_append] at h1
  rw [hres0f, List.nil_append] at h2
  rw [hcur0, Nat.zero_add] at h3
  have hrunres : (runJob tasks).result = (List.foldl stepJob (jobStart tasks) tasks).result :=
    rfl
  have hrunprog : (runJob tasks).progress =
      trackerStep (List.foldl stepJob (jobStart tasks) tasks).progress .complete := rfl
  refine ⟨?_, ?_, ?_, ?_, ?_⟩
  · rw [hrunres, h1, l1]
    omega
  · rw [hrunres, h2, l2, hK]
  · rw [hrunres, h1]
  · rw [hrunprog, hfin]
    exact h3
  · rw [hrunprog, hfin]

/-- A batch used by the C1 witness: one readable invoice, one fetch failure,
one unreadable stream — N = 3, K = 2. -/
def tasksW : List AttachmentTask :=
  [{ meta := metaW, ref := blobW.ref, fetched := some blobW.text },
   { meta := metaW, ref := blobBadW.ref, fetched := none },
   { meta := metaW, ref := blobBadW.ref, fetched := some none }]

/-- Witness for C1: on the concrete batch `tasksW` with exactly 2 failing
units, the job ends with 1 record, 2 failed files, `current = 3`,
`completed`. -/
theorem batch_failure_isolation_witness :
    (runJob tasksW).result.invoices.length = tasksW.length - 2 ∧
    (runJob tasksW).result.failedFiles.length = 2 ∧
    (runJob tasksW).result.invoices =
      tasksW.filterMap (fun t => (processOne t).toOption) ∧
    (runJob tasksW).progress.current = tasksW.length ∧
    (runJob tasksW).progress.status = JobStatus.completed :=
  batch_failure_isolation tasksW 2 (by decide)

/-! ## C6 — anchor edge-case policy -/

/-- C6: a readable document matching zero invoice anchors is an
`ExtractionFailure` with reason `noAnchorsFound` — never a record of
all-zero fields — while a document matching any non-empty (in particular any
partial) anchor set yields the assembled record, never a failure; and the
assembly populates every matched field with its matched value (monetary
fields through the decimal coercion) and sets every missing field to the
explicit empty/zero sentinel, whatever the partial anchor set is.
(Extractor modelled from spec §4.4.) -/
theorem extract_anchor_policy (meta : EmailMeta) (blob : AttachmentBlob) (t : String)
    (ht : blob.text = some t) :
    ((extractFields t).anyFound = false →
      extract meta blob =
        Except.error { filename := blob.ref.filename, reason := .noAnchorsFound }) ∧
    ((extractFields t).anyFound = true →
      extract meta blob = Except.ok (buildRecord meta (extractFields t))) ∧
    (∀ f : RawFields,
      (f.invoiceNumber = none → (buildRecord meta f).invoiceNumber = "") ∧
      (∀ v, f.invoiceNumber = some v → (buildRecord meta f).invoiceNumber = v) ∧
      (f.invoiceDate = none → (buildRecord meta f).invoiceDate = "") ∧
      (∀ v, f.invoiceDate = some v → (buildRecord meta f).invoiceDate = v) ∧
      (f.buyerName = none → (buildRecord meta f).buyerName = "") ∧
      (∀ v, f.buyerName = some v → (buildRecord meta f).buyerName = v) ∧
      (f.buyerTaxId = none → (buildRecord meta f).buyerTaxId = "") ∧
      (∀ v, f.buyerTaxId = some v → (buildRecord meta f).buyerTaxId = v) ∧
      (f.sellerName = none → (buildRecord meta f).sellerName = "") ∧
      (∀ v, f.sellerName = some v → (buildRecord meta f).sellerName = v) ∧
      (f.taxableAmount = none → (buildRecord meta f).taxableAmount = 0) ∧
      (∀ v, f.taxableAmount = some v → (buildRecord meta f).taxableAmount = parseAmount v) ∧
      (f.taxFreeAmount = none → (buildRecord meta f).taxFreeAmount = 0) ∧
      (∀ v, f.taxFreeAmount = some v → (buildRecord meta f).taxFreeAmount = parseAmount v) ∧
      (f.zeroTaxAmount = none → (buildRecord meta f).zeroTaxAmount = 0) ∧
      (∀ v, f.zeroTaxAmount = some v → (buildRecord meta f).zeroTaxAmount = parseAmount v) ∧
      (f.taxAmount = none → (buildRecord meta f).taxAmount = 0) ∧
      (∀ v, f.taxAmount = some v → (buildRecord meta f).taxAmount = parseAmount v) ∧
      (f.totalAmount = none → (buildRecord meta f).totalAmount = 0) ∧
      (∀ v, f.totalAmount = some v → (buildRecord meta f).totalAmount = parseAmount v)) := by
  refine ⟨?_, ?_, ?_⟩
  · intro h
    simp [extract, ht, h]
  · intro h
    simp [extract, ht, h]
  · intro f
    refine ⟨fun h => by simp [buildRecord, h], fun v hv => by simp [buildRecord, hv],
      fun h => by simp [buildRecord, h], fun v hv => by simp [buildRecord, hv],
      fun h => by simp [buildRecord, h], fun v hv => by simp [buildRecord, hv],
      fun h => by simp [buildRecord, h], fun v hv => by simp [buildRecord, hv],
      fun h => by simp [buildRecord, h], fun v hv => by simp [buildRecord, hv],
      fun h => by simp [buildRecord, h], fun v hv => by simp [buildRecord, hv],
      fun h => by simp [buildRecord, h], fun v hv => by simp [buildRecord, hv],
      fun h => by simp [buildRecord, h], fun v hv => by simp [buildRecord, hv],
      fun h => by simp [buildRecord, h], fun v hv => by simp [buildRecord, hv],
      fun h => by simp [buildRecord, h], fun v hv => by simp [buildRecord, hv]⟩

/-- Witness for C6: `"收據"` matches no anchor and fails with
`noAnchorsFound`; `blobW`'s text matches a partial anchor set (only the
invoice-number anchor), so extraction yields the assembled record, whose
matched `invoiceNumber` is populated and whose unmatched `taxableAmount`
sits at the zero sentinel. -/
theorem extract_anchor_policy_witness :
    extract metaW { ref := blobBadW.ref, text := some "收據" } =
      Except.error { filename := blobBadW.ref.filename, reason := .noAnchorsFound } ∧
    extract metaW blobW =
      Except.ok (buildRecord metaW (extractFields "發票號碼: AB-12345678")) ∧
    (buildRecord metaW (extractFields "發票號碼: AB-12345678")).invoiceNumber =
      "AB-12345678" ∧
    (buildRecord metaW (extractFields "發票號碼: AB-12345678")).taxableAmount = 0 := by
  refine ⟨(extract_anchor_policy metaW _ "收據" rfl).1 (by decide),
    (extract_anchor_policy metaW blobW "發票號碼: AB-12345678" rfl).2.1 (by decide),
    ?_, ?_⟩
  · obtain ⟨_, h2, _⟩ := (extract_anchor_policy metaW blobW "發票號碼: AB-12345678" rfl).2.2
      (extractFields "發票號碼: AB-12345678")
    exact h2 "AB-12345678" (by decide)
  · obtain ⟨_, _, _, _, _, _, _, _, _, _, h11, _⟩ :=
      (extract_anchor_policy metaW blobW "發票號碼: AB-12345678" rfl).2.2
        (extractFields "發票號碼: AB-12345678")
    exact h11 (by decide)

/-! ## C9 — monetary fields: non-negative, invariant checked but not enforced -/

/-- Coerced amounts are never negative. -/
theorem parseAmount_nonneg (s : String) : 0 ≤ parseAmount s := by
  unfold parseAmount
  positivity

/-- An optional matched amount coerced with the zero default is never
negative. -/
theorem amount_opt_nonneg (o : Option String) : 0 ≤ (o.map parseAmount).getD 0 := by
  cases o with
  | none => exact le_refl 0
  | some s => exact parseAmount_nonneg s

/-- Every monetary field assembled by the extractor is non-negative. -/
theorem buildRecord_amounts_nonneg (meta : EmailMeta) (f : RawFields) :
    0 ≤ (buildRecord meta f).taxableAmount ∧
    0 ≤ (buildRecord meta f).taxFreeAmount ∧
    0 ≤ (buildRecord meta f).zeroTaxAmount ∧
    0 ≤ (buildRecord meta f).taxAmount ∧
    0 ≤ (buildRecord meta f).totalAmount :=
  ⟨amount_opt_nonneg f.taxableAmount, amount_opt_nonneg f.taxFreeAmount,
   amount_opt_nonneg f.zeroTaxAmount, amount_opt_nonneg f.taxAmount,
   amount_opt_nonneg f.totalAmount⟩

/-- C9: every monetary field of an extracted record is non-negative, and the
total-equation invariant is checked but not enforced: a unit whose record
violates `checkTotal` is still appended to the job's invoice list by the
aggregation step, never rejected as a failure.  (Extractor and aggregator
modelled from spec §3/§4.4/§4.6.) -/
theorem monetary_policy (meta : EmailMeta) (f : RawFields) (st : JobState)
    (task : AttachmentTask) (r : InvoiceRecord)
    (hok : processOne task = Except.ok r) (_hbad : checkTotal r = false) :
    (0 ≤ (buildRecord meta f).taxableAmount ∧
     0 ≤ (buildRecord meta f).taxFreeAmount ∧
     0 ≤ (buildRecord meta f).zeroTaxAmount ∧
     0 ≤ (buildRecord meta f).taxAmount ∧
     0 ≤ (buildRecord meta f).totalAmount) ∧
    (stepJob st task).result.invoices = st.result.invoices ++ [r] := by
  refine ⟨buildRecord_amounts_nonneg meta f, ?_⟩
  simp [stepJob, hok]

/-- A unit whose text yields `taxable = 50` but `total = 100`, violating the
total equation. -/
def mismatchTask : AttachmentTask :=
  { meta := metaW, ref := blobW.ref,
    fetched := some (some "應稅銷售額: 50\n發票總金額: 100") }

/-- The record `mismatchTask` extracts to. -/
def mismatchRecord : InvoiceRecord :=
  { emailSubject := metaW.subject, emailSender := metaW.sender,
    emailDate := metaW.date, invoiceNumber := "", invoiceDate := "",
    buyerName := "", buyerTaxId := "", sellerName := "",
    taxableAmount := parseAmount "50", taxFreeAmount := 0, zeroTaxAmount := 0,
    taxAmount := 0, totalAmount := parseAmount "100" }

/-- Evaluation of the coerced sample amount 50. -/
theorem parseAmount_50 : parseAmount "50" = 50 := by
  rw [show parseAmount "50" = ((50 : ℕ) : ℚ) + ((0 : ℕ) : ℚ) / 10 ^ (0 : ℕ) from rfl]
  norm_num

/-- Evaluation of the coerced sample amount 100. -/
theorem parseAmount_100 : parseAmount "100" = 100 := by
  rw [show parseAmount "100" = ((100 : ℕ) : ℚ) + ((0 : ℕ) : ℚ) / 10 ^ (0 : ℕ) from rfl]
  norm_num

/-- The sample record really violates the total equation: 100 ≠ 50. -/
theorem mismatchRecord_fails_check : checkTotal mismatchRecord = false := by
  simp only [checkTotal, mismatchRecord, parseAmount_50, parseAmount_100,
    decide_eq_false_iff_not]
  norm_num

/-- Witness for C9: the concrete mismatching record (total 100 ≠ 50) is
still recorded, and its assembled fields are non-negative. -/
theorem monetary_policy_witness :
    (0 ≤ (buildRecord metaW (extractFields "應稅銷售額: 50\n發票總金額: 100")).taxableAmount ∧
     0 ≤ (buildRecord metaW (extractFields "應稅銷售額: 50\n發票總金額: 100")).taxFreeAmount ∧
     0 ≤ (buildRecord metaW (extractFields "應稅銷售額: 50\n發票總金額: 100")).zeroTaxAmount ∧
     0 ≤ (buildRecord metaW (extractFields "應稅銷售額: 50\n發票總金額: 100")).taxAmount ∧
     0 ≤ (buildRecord metaW (extractFields "應稅銷售額: 50\n發票總金額: 100")).totalAmount) ∧
    (stepJob (jobStart [mismatchTask]) mismatchTask).result.invoices =
      (jobStart [mismatchTask]).result.invoices ++ [mismatchRecord] :=
  monetary_policy metaW (extractFields "應稅銷售額: 50\n發票總金額: 100")
    (jobStart [mismatchTask]) mismatchTask mismatchRecord rfl mismatchRecord_fails_check

/-! ## C3 — sender normalization

Proof infrastructure: `dropTrailingWs` strips the maximal whitespace run the
regex tail's `\s*` absorbs from the end of group 1; the lemmas track the
scan through the prefix and relate the absorbed run to JS `trim`. -/

/-- Strip the trailing whitespace run of a character list. -/
def dropTrailingWs : List Char → List Char
  | [] => []
  | c :: l =>
    match dropTrailingWs l with
    | [] => if isJsWs c then [] else [c]
    | d :: ds => c :: d :: ds

/-- The trailing strip empties a list exactly when it is all whitespace. -/
theorem dropTrailingWs_eq_nil_iff (l : List Char) :
    dropTrailingWs l = [] ↔ ∀ c ∈ l, isJsWs c = true := by
  induction l with
  | nil => simp [dropTrailingWs]
  | cons c l ih =>
    cases h : dropTrailingWs l with
    | nil =>
      have hl : ∀ x ∈ l, isJsWs x = true := ih.mp h
      simp only [dropTrailingWs, h]
      by_cases hc : isJsWs c = true
      · rw [if_pos hc]
        constructor
        · intro _ x hx
          rcases List.mem_cons.mp hx with hx | hx
          · rw [hx]; exact hc
          · exact hl x hx
        · intro _; rfl
      · simp only [if_neg hc]
        constructor
        · intro hfalse; cases hfalse
        · intro hall
          exact absurd (hall c (List.mem_cons_self c l)) hc
    | cons d ds =>
      simp only [dropTrailingWs, h]
      constructor
      · intro hfalse; cases hfalse
      · intro hall
        have : dropTrailingWs l = [] := ih.mpr fun x hx => hall x (List.mem_cons_of_mem c hx)
        rw [this] at h
        cases h

/-- The trailing strip commutes with consing a head when the list is not all
whitespace. -/
theorem dropTrailingWs_cons_of_not_all (c : Char) (l : List Char)
    (h : ¬ ∀ x ∈ c :: l, isJsWs x = true) :
    dropTrailingWs (c :: l) = c :: dropTrailingWs l := by
  cases hq : dropTrailingWs l with
  | nil =>
    have hl : ∀ x ∈ l, isJsWs x = true := (dropTrailingWs_eq_nil_iff l).mp hq
    have hc : ¬ isJsWs c = true := by
      intro hc
      exact h fun x hx => by
        rcases List.mem_cons.mp hx with hx | hx
        · rw [hx]; exact hc
        · exact hl x hx
    simp [dropTrailingWs, hq, hc]
  | cons d ds => simp [dropTrailingWs, hq]

/-- The trailing strip is the reversed leading strip of the reversal. -/
theorem dropTrailingWs_eq_reverse (l : List Char) :
    dropTrailingWs l = (l.reverse.dropWhile isJsWs).reverse := by
  induction l with
  | nil => simp [dropTrailingWs]
  | cons c l ih =>
    rw [List.reverse_cons, List.dropWhile_append]
    by_cases hA : l.reverse.dropWhile isJsWs = []
    · have hnil : dropTrailingWs l = [] := by rw [ih, hA, List.reverse_nil]
      rw [if_pos (List.isEmpty_iff.mpr hA)]
      simp only [dropTrailingWs, hnil, List.dropWhile_cons, List.dropWhile_nil]
      by_cases hc : isJsWs c = true
      · simp [hc]
      · simp [hc]
    · have hne : dropTrailingWs l ≠ [] := by
        rw [ih]
        intro hx
        exact hA (by simpa using congrArg List.reverse hx)
      rw [if_neg (by simpa [List.isEmpty_iff] using hA)]
      rw [List.reverse_append, List.reverse_singleton, List.singleton_append]
      cases hq : dropTrailingWs l with
      | nil => exact absurd hq hne
      | cons d ds =>
        simp only [dropTrailingWs, hq]
        rw [← hq, ih]

/-- Leading and trailing whitespace strips commute. -/
theorem dropWhile_dropTrailingWs_comm (l : List Char) :
    (dropTrailingWs l).dropWhile isJsWs = dropTrailingWs (l.dropWhile isJsWs) := by
  induction l with
  | nil => simp [dropTrailingWs]
  | cons c l ih =>
    cases h : dropTrailingWs l with
    | nil =>
      have hl : ∀ x ∈ l, isJsWs x = true := (dropTrailingWs_eq_nil_iff l).mp h
      have hldrop : l.dropWhile isJsWs = [] := List.dropWhile_eq_nil_iff.mpr hl
      by_cases hc : isJsWs c = true
      · simp [dropTrailingWs, h, hc, List.dropWhile_cons, hldrop]
      · simp [dropTrailingWs, h, hc, List.dropWhile_cons, hldrop]
    | cons d ds =>
      have hcl : dropTrailingWs (c :: l) = c :: d :: ds := by simp [dropTrailingWs, h]
      by_cases hc : isJsWs c = true
      · have lhs : (c :: d :: ds).dropWhile isJsWs = (d :: ds).dropWhile isJsWs := by
          rw [List.dropWhile_cons, if_pos hc]
        have rhs : (c :: l).dropWhile isJsWs = l.dropWhile isJsWs := by
          rw [List.dropWhile_cons, if_pos hc]
        rw [hcl, lhs, rhs, ← h, ih]
      · rw [hcl, List.dropWhile_cons, if_neg hc, List.dropWhile_cons, if_neg hc]
        have hnot : ¬ ∀ x ∈ c :: l, isJsWs x = true := fun hall =>
          hc (hall c (List.mem_cons_self c l))
        rw [dropTrailingWs_cons_of_not_all c l hnot, h]

/-- The trailing strip is idempotent. -/
theorem dropTrailingWs_idem (l : List Char) :
    dropTrailingWs (dropTrailingWs l) = dropTrailingWs l := by
  induction l with
  | nil => simp [dropTrailingWs]
  | cons c l ih =>
    cases h : dropTrailingWs l with
    | nil =>
      by_cases hc : isJsWs c = true
      · simp [dropTrailingWs, h, hc]
      · simp [dropTrailingWs, h, hc]
    | cons d ds =>
      rw [show dropTrailingWs (c :: l) = c :: d :: ds by simp [dropTrailingWs, h]]
      have hdds : dropTrailingWs (d :: ds) = d :: ds := by
        rw [← h, ih, h]
      show (match dropTrailingWs (d :: ds) with
        | [] => if isJsWs c = true then [] else [c]
        | e :: es => c :: e :: es) = c :: d :: ds
      rw [hdds]

/-- JS `trim` as leading strip followed by trailing strip. -/
theorem trimChars_eq (l : List Char) :
    trimChars l = dropTrailingWs (l.dropWhile isJsWs) := by
  rw [trimChars, dropTrailingWs_eq_reverse]

/-- Trimming ignores an already-stripped whitespace tail. -/
theorem trimChars_dropTrailingWs (l : List Char) :
    trimChars (dropTrailingWs l) = trimChars l := by
  rw [trimChars_eq, trimChars_eq, dropWhile_dropTrailingWs_comm, dropTrailingWs_idem]

/-- The tail core fails at any head other than an opening parenthesis. -/
theorem tailCore_not_lparen (c : Char) (l : List Char) (h : ¬ c = '(') :
    tailCore (c :: l) = none := by
  simp [tailCore, h]

/-- The tail core succeeds on a parenthesized line-terminator-free group
closed at the end of the input. -/
theorem tailCore_paren (a : List Char) (ha : ∀ c ∈ a, isLineTerm c = false) :
    tailCore ('(' :: (a ++ [')'])) = some a := by
  have hrev : (a ++ [')']).reverse = ')' :: a.reverse := by
    rw [List.reverse_append, List.reverse_singleton, List.singleton_append]
  have hall : (a.reverse.reverse.all fun x => !isLineTerm x) = true := by
    rw [List.reverse_reverse, List.all_eq_true]
    intro c hc
    rw [ha c hc]
    rfl
  simp only [tailCore, if_pos rfl, hrev]
  simp [hall]
  intro x hx
  exact ha x hx

/-- The whole tail attempt succeeds from a pure-whitespace run onward. -/
theorem tailMatch_ws_paren (w a : List Char) (hw : ∀ c ∈ w, isJsWs c = true)
    (ha : ∀ c ∈ a, isLineTerm c = false) :
    tailMatch (w ++ '(' :: (a ++ [')'])) = some a := by
  unfold tailMatch
  have hdrop : (w ++ '(' :: (a ++ [')'])).dropWhile isJsWs = '(' :: (a ++ [')']) := by
    induction w with
    | nil =>
      rw [List.nil_append, List.dropWhile_cons,
        if_neg (by rw [show isJsWs '(' = false from rfl]; simp)]
    | cons c w ih =>
      rw [List.cons_append, List.dropWhile_cons, if_pos (hw c (List.mem_cons_self c w))]
      exact ih fun x hx => hw x (List.mem_cons_of_mem c hx)
  rw [hdrop]
  exact tailCore_paren a ha

/-- The leading-whitespace strip is a suffix of its input. -/
theorem dropWhile_isSuffix (p : Char → Bool) (l : List Char) :
    (l.dropWhile p).IsSuffix l := by
  induction l with
  | nil => exact List.suffix_rfl
  | cons c l ih =>
    rw [List.dropWhile_cons]
    by_cases hc : p c = true
    · rw [if_pos hc]
      exact ih.trans (List.suffix_cons c l)
    · rw [if_neg hc]

/-- The tail attempt fails on input containing no opening parenthesis. -/
theorem tailMatch_of_no_lparen (t : List Char) (h : '(' ∉ t) : tailMatch t = none := by
  unfold tailMatch
  cases hq : t.dropWhile isJsWs with
  | nil => rfl
  | cons c l =>
    have hc : c ∈ t := (List.dropWhile_sublist isJsWs).subset
      (hq ▸ List.mem_cons_self c l)
    exact tailCore_not_lparen c l fun hcp => h (hcp ▸ hc)

/-- The tail attempt fails unless the very last character of the input is a
closing parenthesis. -/
theorem tailMatch_of_last_ne (t : List Char) (h : t.getLast? ≠ some ')') :
    tailMatch t = none := by
  unfold tailMatch
  cases hq : t.dropWhile isJsWs with
  | nil => rfl
  | cons c l =>
    by_cases hc : c = '('
    · subst hc
      cases hl : l.reverse with
      | nil => simp [tailCore, hl]
      | cons c2 r2 =>
        have hlast : l.getLast? = some c2 := by
          rw [← List.reverse_reverse l, hl, List.reverse_cons, List.getLast?_concat]
        have hsuf : ('(' :: l).IsSuffix t := hq ▸ dropWhile_isSuffix isJsWs t
        obtain ⟨u, hu⟩ := hsuf
        have htlast : t.getLast? = some c2 := by
          rw [← hu, List.getLast?_append, List.getLast?_cons, hlast]
          rfl
        have hc2 : ¬ c2 = ')' := fun he => h (he ▸ htlast)
        simp [tailCore, hl, hc2]
    · exact tailCore_not_lparen c l hc

/-- The scan falls through to the whole-string match on line-terminator-free
input whose shape rules the parenthesized tail out everywhere. -/
theorem senderScan_fallback (rem : List Char) : ∀ acc : List Char,
    (∀ c ∈ rem, isLineTerm c = false) →
    ('(' ∉ rem ∨ rem.getLast? ≠ some ')') →
    senderScan acc rem = some (acc.reverse ++ rem, none) := by
  induction rem with
  | nil =>
    intro acc _ _
    simp [senderScan]
  | cons c rest ih =>
    intro acc hlt hd
    have htm : tailMatch (c :: rest) = none := by
      rcases hd with hd | hd
      · exact tailMatch_of_no_lparen _ hd
      · exact tailMatch_of_last_ne _ hd
    have hc : isLineTerm c = false := hlt c (List.mem_cons_self c rest)
    have hd2 : '(' ∉ rest ∨ rest.getLast? ≠ some ')' := by
      rcases hd with hd | hd
      · exact Or.inl fun hx => hd (List.mem_cons_of_mem c hx)
      · cases hr : rest with
        | nil => exact Or.inl (by simp)
        | cons d ds =>
          refine Or.inr ?_
          have : (c :: rest).getLast? = rest.getLast? := by
            rw [hr, List.getLast?_cons, List.getLast?_cons]
            rfl
          rw [← hr, ← this]
          exact hd
    rw [senderScan, htm]
    simp only [hc, Bool.false_eq_true, if_false]
    rw [ih (c :: acc) (fun x hx => hlt x (List.mem_cons_of_mem c hx)) hd2]
    simp

/-- The scan resolves a clean parenthesized tail: group 1 is the prefix with
its trailing whitespace absorbed by `\s*`, group 2 the parenthesized text. -/
theorem senderScan_paren (p : List Char) : ∀ (acc a : List Char),
    '(' ∉ p → (∀ c ∈ p, isLineTerm c = false) → (∀ c ∈ a, isLineTerm c = false) →
    senderScan acc (p ++ '(' :: (a ++ [')'])) =
      some (acc.reverse ++ dropTrailingWs p, some a) := by
  induction p with
  | nil =>
    intro acc a _ _ ha
    have htm : tailMatch ('(' :: (a ++ [')'])) = some a :=
      tailMatch_ws_paren [] a (by simp) ha
    rw [List.nil_append, senderScan, htm]
    simp [dropTrailingWs]
  | cons c p ih =>
    intro acc a hp hlt ha
    by_cases hws : ∀ x ∈ c :: p, isJsWs x = true
    · have htm : tailMatch (c :: (p ++ '(' :: (a ++ [')']))) = some a := by
        have := tailMatch_ws_paren (c :: p) a hws ha
        rwa [List.cons_append] at this
      rw [List.cons_append, senderScan, htm]
      have hnil : dropTrailingWs (c :: p) = [] := (dropTrailingWs_eq_nil_iff _).mpr hws
      rw [hnil]
      simp
    · have hq : (c :: p).dropWhile isJsWs ≠ [] := by
        rw [Ne, List.dropWhile_eq_nil_iff]
        exact hws
      have htm : tailMatch (c :: (p ++ '(' :: (a ++ [')']))) = none := by
        unfold tailMatch
        rw [← List.cons_append, List.dropWhile_append,
          if_neg (by rw [List.isEmpty_iff]; exact hq)]
        cases hq2 : (c :: p).dropWhile isJsWs with
        | nil => exact absurd hq2 hq
        | cons d ds =>
          rw [List.cons_append]
          have hd : d ∈ c :: p := (List.dropWhile_sublist isJsWs).subset
            (hq2 ▸ List.mem_cons_self d ds)
          exact tailCore_not_lparen _ _ fun hdp => hp (hdp ▸ hd)
      have hc : isLineTerm c = false := hlt c (List.mem_cons_self c p)
      rw [List.cons_append, senderScan, htm]
      simp only [hc, Bool.false_eq_true, if_false]
      rw [ih (c :: acc) a (fun hx => hp (List.mem_cons_of_mem c hx))
        (fun x hx => hlt x (List.mem_cons_of_mem c hx)) ha]
      rw [dropTrailingWs_cons_of_not_all c p hws]
      simp

/-- Appending strings concatenates their character lists. -/
theorem string_toList_append (s t : String) : (s ++ t).toList = s.toList ++ t.toList := by
  cases s
  cases t
  rfl

/-- A string with no characters is the empty string. -/
theorem string_eq_empty_of_toList (s : String) (h : s.toList = []) : s = "" := by
  cases s
  simp_all [String.toList]

/-- C3 counterexample: `"alice@example.com"` contains neither `<` nor `(`,
so it matches neither the `"Name <addr>"` nor the `"Name (addr)"` pattern
under any reading; the claim then requires sender address `= ""`, but
`handleSearch` sets `senderEmail = matches[2] || matches[1]`, which falls
back to the whole raw string — a nonempty address. -/
theorem sender_fallback_address_cex :
    '<' ∉ "alice@example.com".toList ∧ '(' ∉ "alice@example.com".toList ∧
    parseSender "alice@example.com" =
      { name := "alice@example.com", email := "alice@example.com" } ∧
    "alice@example.com" ≠ "" := by
  decide

/-- C3 amended: the source parses only the `"Name (addr)"` shape, with the
parenthesized address closing the string: for line-terminator-free `p`
without `(` and nonempty line-terminator-free `a`, parsing `p ++ "(" ++ a ++
")"` yields name `= trim p` and address `= a`.  The `"Name <addr>"` shape
receives no special treatment: any nonempty line-terminator-free string
that cannot match the parenthesized tail (no `(`, or the last character is
not `)`) falls back to name `= trim s` and address `= s` — the raw string,
not the empty string. -/
theorem sender_parse_amended :
    (∀ p a : String, '(' ∉ p.toList → (∀ c ∈ p.toList, isLineTerm c = false) →
      (∀ c ∈ a.toList, isLineTerm c = false) → a ≠ "" →
      parseSender (p ++ "(" ++ a ++ ")") =
        { name := String.mk (trimChars p.toList), email := a }) ∧
    (∀ s : String, s ≠ "" → (∀ c ∈ s.toList, isLineTerm c = false) →
      ('(' ∉ s.toList ∨ s.toList.getLast? ≠ some ')') →
      parseSender s = { name := String.mk (trimChars s.toList), email := s }) := by
  constructor
  · intro p a hp hplt halt hane
    have htl : (p ++ "(" ++ a ++ ")").toList = p.toList ++ '(' :: (a.toList ++ [')']) := by
      rw [string_toList_append, string_toList_append, string_toList_append,
        show "(".toList = ['('] from rfl, show ")".toList = [')'] from rfl]
      simp
    have hne : (p ++ "(" ++ a ++ ")") ≠ "" := by
      intro he
      have h0 : (p ++ "(" ++ a ++ ")").toList = [] := by rw [he]; rfl
      rw [htl] at h0
      simp at h0
    have hscan := senderScan_paren p.toList [] a.toList hp hplt halt
    simp only [List.reverse_nil, List.nil_append] at hscan
    have hanil : a.toList ≠ [] := fun hx => hane (string_eq_empty_of_toList a hx)
    simp only [parseSender, if_neg hne, htl, hscan, hanil, if_false, if_neg hanil]
    rw [trimChars_dropTrailingWs]
    rfl
  · intro s hs hlt hd
    have hscan := senderScan_fallback s.toList [] hlt hd
    simp only [List.reverse_nil, List.nil_append] at hscan
    simp only [parseSender, if_neg hs, hscan]
    rfl

/-- Witness for C3's amended statement: the parenthesized shape
`"Alice Wang (alice@example.com)"` parses into name and address, while the
angle-bracket shape `"Bob <bob@example.com>"` falls back to the raw string
in both fields. -/
theorem sender_parse_amended_witness :
    parseSender "Alice Wang (alice@example.com)" =
      { name := "Alice Wang", email := "alice@example.com" } ∧
    parseSender "Bob <bob@example.com>" =
      { name := "Bob <bob@example.com>", email := "Bob <bob@example.com>" } :=
  ⟨sender_parse_amended.1 "Alice Wang " "alice@example.com"
      (by decide) (by decide) (by decide) (by decide),
   sender_parse_amended.2 "Bob <bob@example.com>"
      (by decide) (by decide) (Or.inr (by decide))⟩

end PdfInvoice
